import Mathlib

set_option maxRecDepth 8192

/-! Verification of the experanto temporal-alignment / interpolation engine.

The Python sources (`experanto/interpolators.py`) are shallowly embedded:
numpy float arrays become `List ℚ` (exact rational arithmetic), 2-D arrays
become `List (List ℚ)` (row major; time is always the first source axis),
fallible numpy operations (integer indexing, `take_along_axis`) return
`Option`, and Python `raise` / failed `assert` becomes `Except.error`
carrying the source's message. -/

/-- Python/numpy integer indexing into the first axis: a negative index wraps
once from the end, anything else out of range is an `IndexError` (`none`). -/
def pyGet {α : Type} (l : List α) (i : ℤ) : Option α :=
  if 0 ≤ i then l.get? i.toNat
  else if (-i).toNat ≤ l.length then l.get? (l.length - (-i).toNat)
  else none

/-- Python slicing `l[a:b]` (step 1): negative bounds count once from the end,
then both bounds are clamped to `[0, len]`. -/
def pySlice {α : Type} (l : List α) (a b : ℤ) : List α :=
  let n : ℤ := l.length
  let lo := if a < 0 then max 0 (n + a) else min a n
  let hi := if b < 0 then max 0 (n + b) else min b n
  (l.take hi.toNat).drop lo.toNat

/-- `np.arange(a, b)` over integers. -/
def arangeZ (a b : ℤ) : List ℤ :=
  (List.range (b - a).toNat).map fun k : ℕ => a + (k : ℤ)

/-- numpy boolean-mask indexing `xs[mask]`; every use site builds the mask
elementwise from `xs`, so the two lists have equal length. -/
def maskFilter {α : Type} (xs : List α) (mask : List Bool) : List α :=
  ((xs.zip mask).filter fun p => p.2).map fun p => p.1

/-- `np.all(np.diff(l) > 0)`: every adjacent difference is positive. -/
def npAllDiffPos : List ℚ → Bool
  | [] => true
  | [_] => true
  | a :: b :: rest => decide (a < b) && npAllDiffPos (b :: rest)

/-- `np.searchsorted(l, v)` with the default `side='left'`, modelled for the
sorted arrays it is applied to: the number of elements strictly below `v`. -/
def searchsortedLeft (l : List ℚ) (v : ℚ) : ℕ :=
  l.countP fun x => decide (x < v)

/-- `np.min` over a nonempty integer array (`np.min` rejects the empty one;
the `0` default is never exercised). -/
def listMinI : List ℤ → ℤ
  | [] => 0
  | x :: xs => xs.foldl min x

/-- `np.max` over a nonempty integer array. -/
def listMaxI : List ℤ → ℤ
  | [] => 0
  | x :: xs => xs.foldl max x

/-- `np.min` over a nonempty rational array. -/
def listMinQ : List ℚ → ℚ
  | [] => 0
  | x :: xs => xs.foldl min x

/-- `np.max` over a nonempty rational array. -/
def listMaxQ : List ℚ → ℚ
  | [] => 0
  | x :: xs => xs.foldl max x

/-- Entry `(i, c)` of a row-major 2-D array, defaulting to 0 out of range. -/
def at2 (m : List (List ℚ)) (i c : ℕ) : ℚ :=
  (m.getD i []).getD c 0

/-- `TimeInterval` (interpolators.py lines 18-32): a half-open time range
`[start, end)` with pure value semantics. -/
structure TimeInterval where
  start : ℚ
  «end» : ℚ
  deriving DecidableEq

/-- `TimeInterval.__contains__` (line 22-23): `self.start <= time < self.end`. -/
def TimeInterval.containsb (iv : TimeInterval) (t : ℚ) : Bool :=
  decide (iv.start ≤ t) && decide (t < iv.«end»)

/-- `TimeInterval.intersect` (line 25-26): the elementwise boolean mask
`(times >= self.start) & (times < self.end)`. -/
def TimeInterval.intersect (iv : TimeInterval) (times : List ℚ) : List Bool :=
  times.map fun t => decide (iv.start ≤ t) && decide (t < iv.«end»)

/-- `Interpolator.__contains__` (lines 54-55): `np.any(self.valid_times(times))`,
where `valid_times` (lines 66-67) is `self.valid_interval.intersect(times)`. -/
def anyValidTime (iv : TimeInterval) (times : List ℚ) : Bool :=
  (iv.intersect times).any id

/-- State of a `SequenceInterpolator` after `__init__` (lines 70-125).
`data` is the raw store of shape `[n_timestamps, n_signals]`; `time_delta`
is `1.0 / sampling_rate`; `phase_shifts` is `some _` exactly when the
metadata flag `phase_shift_per_signal` is set (`use_phase_shifts`). -/
structure SequenceInterpolator where
  data : List (List ℚ)
  start_time : ℚ
  end_time : ℚ
  time_delta : ℚ
  phase_shifts : Option (List ℚ)
  interpolation_mode : String
  interp_window : ℕ
  keep_nans : Bool

/-- `SequenceInterpolator.__init__` lines 95-103: the valid interval is
`[start_time, end_time)`, narrowed by the extreme phase shifts when
`phase_shift_per_signal` is set. -/
def seqValidInterval (s : SequenceInterpolator) : TimeInterval :=
  match s.phase_shifts with
  | none => ⟨s.start_time, s.end_time⟩
  | some ps => ⟨s.start_time + listMaxQ ps, s.end_time + listMinQ ps⟩

-- helper lemmas about foldl max / min

lemma foldl_max_mem (xs : List ℚ) : ∀ a : ℚ, xs.foldl max a ∈ a :: xs := by
  induction xs with
  | nil => intro a; simp
  | cons x xs ih =>
    intro a
    have h := ih (max a x)
    rw [List.foldl_cons]
    rcases List.mem_cons.mp h with h | h
    · rcases max_choice a x with hm | hm
      · rw [h, hm]; exact List.mem_cons_self _ _
      · rw [h, hm]; exact List.mem_cons_of_mem _ (List.mem_cons_self _ _)
    · exact List.mem_cons_of_mem _ (List.mem_cons_of_mem _ h)

lemma foldl_max_le (xs : List ℚ) : ∀ a : ℚ, ∀ x ∈ a :: xs, x ≤ xs.foldl max a := by
  induction xs with
  | nil =>
    intro a x hx
    rw [List.mem_singleton] at hx
    simp [hx]
  | cons y ys ih =>
    intro a x hx
    rw [List.foldl_cons]
    rcases List.mem_cons.mp hx with h | h
    · rw [h]
      exact le_trans (le_max_left a y) (ih (max a y) (max a y) (List.mem_cons_self _ _))
    · rcases List.mem_cons.mp h with h | h
      · rw [h]
        exact le_trans (le_max_right a y) (ih (max a y) (max a y) (List.mem_cons_self _ _))
      · exact ih (max a y) x (List.mem_cons_of_mem _ h)

lemma foldl_min_mem (xs : List ℚ) : ∀ a : ℚ, xs.foldl min a ∈ a :: xs := by
  induction xs with
  | nil => intro a; simp
  | cons x xs ih =>
    intro a
    have h := ih (min a x)
    rw [List.foldl_cons]
    rcases List.mem_cons.mp h with h | h
    · rcases min_choice a x with hm | hm
      · rw [h, hm]; exact List.mem_cons_self _ _
      · rw [h, hm]; exact List.mem_cons_of_mem _ (List.mem_cons_self _ _)
    · exact List.mem_cons_of_mem _ (List.mem_cons_of_mem _ h)

lemma foldl_min_le (xs : List ℚ) : ∀ a : ℚ, ∀ x ∈ a :: xs, xs.foldl min a ≤ x := by
  induction xs with
  | nil =>
    intro a x hx
    rw [List.mem_singleton] at hx
    simp [hx]
  | cons y ys ih =>
    intro a x hx
    rw [List.foldl_cons]
    rcases List.mem_cons.mp hx with h | h
    · rw [h]
      exact le_trans (ih (min a y) (min a y) (List.mem_cons_self _ _)) (min_le_left a y)
    · rcases List.mem_cons.mp h with h | h
      · rw [h]
        exact le_trans (ih (min a y) (min a y) (List.mem_cons_self _ _)) (min_le_right a y)
      · exact ih (min a y) x (List.mem_cons_of_mem _ h)

lemma listMaxQ_mem {l : List ℚ} (h : l ≠ []) : listMaxQ l ∈ l := by
  cases l with
  | nil => simp at h
  | cons x xs => exact foldl_max_mem xs x

lemma listMaxQ_ge {l : List ℚ} : ∀ x ∈ l, x ≤ listMaxQ l := by
  cases l with
  | nil => intro x hx; simp at hx
  | cons y ys => intro x hx; exact foldl_max_le ys y x hx

lemma listMinQ_mem {l : List ℚ} (h : l ≠ []) : listMinQ l ∈ l := by
  cases l with
  | nil => simp at h
  | cons x xs => exact foldl_min_mem xs x

lemma listMinQ_le {l : List ℚ} : ∀ x ∈ l, listMinQ l ≤ x := by
  cases l with
  | nil => intro x hx; simp at hx
  | cons y ys => intro x hx; exact foldl_min_le ys y x hx

/-- C6: for every `TimeInterval` with `start < end` and every time `t`,
membership holds iff `start ≤ t < end`; `intersect` is the elementwise mask
of the same rule; and at the device level (`Interpolator.__contains__` on a
singleton query) a time inside the valid interval is reported valid and a
time outside — including `end` itself — is not. -/
theorem timeInterval_membership :
    (∀ (iv : TimeInterval) (t : ℚ), iv.start < iv.«end» →
      (iv.containsb t = true ↔ iv.start ≤ t ∧ t < iv.«end»)) ∧
    (∀ (iv : TimeInterval) (times : List ℚ),
      iv.intersect times = times.map fun t => decide (iv.start ≤ t ∧ t < iv.«end»)) ∧
    (∀ (iv : TimeInterval) (t : ℚ), iv.start < iv.«end» →
      ((anyValidTime iv [t] = true ↔ iv.start ≤ t ∧ t < iv.«end») ∧
        anyValidTime iv [iv.«end»] = false)) := by
  refine ⟨?_, ?_, ?_⟩
  · intro iv t _
    simp [TimeInterval.containsb]
  · intro iv times
    unfold TimeInterval.intersect
    refine List.map_congr_left fun t _ => ?_
    by_cases h1 : iv.start ≤ t <;> by_cases h2 : t < iv.«end» <;> simp [h1, h2]
  · intro iv t _
    constructor
    · simp [anyValidTime, TimeInterval.intersect]
    · simp [anyValidTime, TimeInterval.intersect]

/-- Witness for C6 at a concrete interval and time. -/
theorem timeInterval_membership_witness :
    (TimeInterval.containsb ⟨0, 1⟩ (1/2) = true ↔ (0:ℚ) ≤ 1/2 ∧ (1/2:ℚ) < 1) ∧
    anyValidTime ⟨0, 1⟩ [1] = false := by
  have h := timeInterval_membership
  exact ⟨h.1 ⟨0, 1⟩ (1/2) (by norm_num), (h.2.2 ⟨0, 1⟩ (1/2) (by norm_num)).2⟩

/-- C4: a `SequenceInterpolator` built with per-channel phase shifts has
`valid_interval = [start_time + max(phase_shifts), end_time + min(phase_shifts))`
(the bounds are genuine maximum/minimum elements of the shift array); without
phase shifts it is `[start_time, end_time)`. -/
theorem seq_valid_interval_spec :
    (∀ (s : SequenceInterpolator) (ps : List ℚ),
      s.phase_shifts = some ps → ps ≠ [] →
      (seqValidInterval s).start = s.start_time + listMaxQ ps ∧
      (seqValidInterval s).«end» = s.end_time + listMinQ ps ∧
      listMaxQ ps ∈ ps ∧ (∀ x ∈ ps, x ≤ listMaxQ ps) ∧
      listMinQ ps ∈ ps ∧ (∀ x ∈ ps, listMinQ ps ≤ x)) ∧
    (∀ s : SequenceInterpolator, s.phase_shifts = none →
      seqValidInterval s = ⟨s.start_time, s.end_time⟩) := by
  constructor
  · intro s ps hps hne
    refine ⟨?_, ?_, listMaxQ_mem hne, fun x hx => listMaxQ_ge x hx,
      listMinQ_mem hne, fun x hx => listMinQ_le x hx⟩
    · simp [seqValidInterval, hps]
    · simp [seqValidInterval, hps]
  · intro s hps
    simp [seqValidInterval, hps]

/-- Witness for C4 at a concrete interpolator with shifts `[1/10, -1/5]`. -/
theorem seq_valid_interval_spec_witness :
    (seqValidInterval ⟨[], 0, 2, 1/10, some [1/10, -1/5], "linear", 5, false⟩).start
        = 0 + listMaxQ [1/10, -1/5] ∧
    (seqValidInterval ⟨[], 0, 2, 1/10, some [1/10, -1/5], "linear", 5, false⟩).«end»
        = 2 + listMinQ [1/10, -1/5] ∧
    seqValidInterval ⟨[], 0, 2, 1/10, none, "linear", 5, false⟩ = ⟨0, 2⟩ := by
  have h := seq_valid_interval_spec
  have h1 := h.1 ⟨[], 0, 2, 1/10, some [1/10, -1/5], "linear", 5, false⟩
    [1/10, -1/5] rfl (by simp)
  exact ⟨h1.1, h1.2.1, h.2 ⟨[], 0, 2, 1/10, none, "linear", 5, false⟩ rfl⟩

/-- Message of the `NotImplementedError` at interpolators.py lines 208-211. -/
def modeErrorMsg : String := "interpolation_mode should be linear or nearest_neighbor"

/-- Message of the length assertion at lines 169-171 and 199-201. -/
def lengthAssertMsg : String := "times and data should be same length before interpolation"

/-- numpy `IndexError` (out-of-range basic or fancy indexing). -/
def indexErrorMsg : String := "IndexError"

def optToExcept {α : Type} (msg : String) : Option α → Except String α
  | some a => .ok a
  | none => .error msg

/-- numpy fancy indexing `data[idx]` with an integer index array along the
first axis: negative entries wrap once, out-of-range entries raise. -/
def npFancyIndex {α : Type} (data : List α) (idx : List ℤ) : Option (List α) :=
  idx.mapM fun i => pyGet data i

/-- `np.take_along_axis(data, idx, axis=0)` (line 140): entry `(i, c)` of the
result is `data[idx[i][c]][c]`.  The index array must have one column per
signal; numpy's broadcasting of a size-1 trailing axis is not modelled (the
source always passes one column per phase shift). -/
def takeAlongAxis0 (data : List (List ℚ)) (idx : List (List ℤ)) : Option (List (List ℚ)) :=
  if idx.all fun row => row.length == (data.headD []).length then
    idx.mapM fun row => row.enum.mapM fun ci => do
      let r ← pyGet data ci.2
      r.get? ci.1
  else none

/-- Value used where the source writes `np.nan` (`np.full(..., np.nan)`,
line 192): ℚ has no NaN; no theorem inspects these fill values. -/
def nanFill : ℚ := 0

/-- Modelled from the spec: piecewise-linear reconstruction of one channel,
the core of `linear_interpolate_1d_sequence` from `experanto/utils.py`, which
is not among the provided sources.  Per spec §4.3 the routine interpolates
"between the two raw samples bracketing each query time"; values outside the
sample range clamp to the nearest sample.  NaN/`keep_nans` gap semantics are
not representable over ℚ and are not exercised by any claim. -/
def interpPts : List (ℚ × ℚ) → ℚ → ℚ
  | [], _ => 0
  | [p], _ => p.2
  | p :: q :: rest, t =>
    if t ≤ p.1 then p.2
    else if t ≤ q.1 then p.2 + (q.2 - p.2) * (t - p.1) / (q.1 - p.1)
    else interpPts (q :: rest) t

/-- Modelled from the spec: `linear_interpolate_1d_sequence` from
`experanto/utils.py` (missing from the sources) — reconstruct one channel at
each query time; returns one value per query time. -/
def linear_interpolate_1d_sequence (chanData : List ℚ) (chanTimes : List ℚ)
    (queryTimes : List ℚ) (_keepNans : Bool) : List ℚ :=
  queryTimes.map fun t => interpPts (chanTimes.zip chanData) t

/-- Modelled from the spec: `linear_interpolate_sequences` from
`experanto/utils.py` (missing from the sources) — the "shared piecewise-linear
interpolation routine" run "against the exact query times once for all
channels" (spec §4.3); returns one row per query time, one column per
channel of `array`. -/
def linear_interpolate_sequences (array : List (List ℚ)) (origTimes : List ℚ)
    (queryTimes : List ℚ) (_keepNans : Bool) : List (List ℚ) :=
  let nCh := (array.headD []).length
  queryTimes.map fun t =>
    (List.range nCh).map fun c =>
      interpPts (origTimes.zip (array.map fun row => row.getD c 0)) t

/-- `SequenceInterpolator.interpolate`, linear branch without phase shifts
(lines 151-174): one contiguous raw window `data[start_idx:end_idx]` with its
reconstructed timestamps, length-asserted, then handed to
`linear_interpolate_sequences`.  `idx[0]` on an empty index array is a Python
`IndexError`. -/
def seqLinearNoShift (s : SequenceInterpolator) (vt : List ℚ) (idx : List ℤ) :
    Except String (List (List ℚ)) :=
  match idx with
  | [] => .error indexErrorMsg
  | i0 :: rest =>
    let iN := rest.getLastD i0
    let iv := seqValidInterval s
    let w : ℤ := s.interp_window
    let startIdx : ℤ := max 0 (i0 - w)
    let endIdx : ℤ := min (iN + w) ⌊(iv.«end» - iv.start) / s.time_delta⌋
    let array := pySlice s.data startIdx endIdx
    let origTimes := (arangeZ startIdx endIdx).map fun k : ℤ => (k : ℚ) * s.time_delta + iv.start
    if array.length = origTimes.length then
      .ok (linear_interpolate_sequences array origTimes vt s.keep_nans)
    else .error lengthAssertMsg

/-- `SequenceInterpolator.interpolate`, linear branch with phase shifts
(lines 176-204).  The output is allocated as `np.full((n_signals,
len(valid_times)), np.nan)` — channel major.  The loop enumerates the rows of
`start_idx` (one per valid query time) and uses the loop counter both as a
column of the raw store and as a row of the output, exactly as the source
does; either index going out of range raises. -/
def seqLinearShift (s : SequenceInterpolator) (vt : List ℚ) (idx : List (List ℤ)) :
    Except String (List (List ℚ)) := do
  let col0 ← optToExcept indexErrorMsg (idx.mapM List.head?)
  let colN ← optToExcept indexErrorMsg (idx.mapM List.getLast?)
  let w : ℤ := s.interp_window
  let startIdx := col0.map fun i => if i - w > 0 then i - w else 0
  let iv := seqValidInterval s
  let maxIdx : ℤ := ⌊(iv.«end» - iv.start) / s.time_delta⌋
  let endIdx := colN.map fun i => if i + w < maxIdx then i + w else maxIdx
  let nSig := (s.data.headD []).length
  let init : List (List ℚ) := List.replicate nSig (List.replicate vt.length nanFill)
  (List.range startIdx.length).foldlM (fun out n => do
    let st := startIdx.getD n 0
    let en := endIdx.getD n 0
    if n < nSig then
      let rows := pySlice s.data st en
      let localData ← optToExcept indexErrorMsg (rows.mapM fun r => r.get? n)
      let localTime := (arangeZ st en).map fun k : ℤ => (k : ℚ) * s.time_delta + iv.start
      if localData.length = localTime.length then
        pure (out.set n (linear_interpolate_1d_sequence localData localTime vt s.keep_nans))
      else throw lengthAssertMsg
    else throw indexErrorMsg) init

/-- `SequenceInterpolator.interpolate` (lines 127-211) applied to the already
mask-filtered valid query times: index conversion, raw gather, then dispatch
on `interpolation_mode` (an unknown mode raises only after the gather, as in
the source). -/
def seqSamples (s : SequenceInterpolator) (vt : List ℚ) :
    Except String (List (List ℚ)) :=
  match s.phase_shifts with
  | some ps =>
    let idx : List (List ℤ) :=
      vt.map fun t => ps.map fun p => ⌊(t - p - s.start_time) / s.time_delta⌋
    match takeAlongAxis0 s.data idx with
    | none => .error indexErrorMsg
    | some dat =>
      if s.interpolation_mode = "nearest_neighbor" then .ok dat
      else if s.interpolation_mode = "linear" then seqLinearShift s vt idx
      else .error modeErrorMsg
  | none =>
    let idx : List ℤ := vt.map fun t => ⌊(t - s.start_time) / s.time_delta⌋
    match npFancyIndex s.data idx with
    | none => .error indexErrorMsg
    | some dat =>
      if s.interpolation_mode = "nearest_neighbor" then .ok dat
      else if s.interpolation_mode = "linear" then seqLinearNoShift s vt idx
      else .error modeErrorMsg

/-- `SequenceInterpolator.interpolate` (lines 127-211): compute the validity
mask, restrict the query times to it, reconstruct, and return the samples
together with the mask. -/
def SequenceInterpolator.interpolate (s : SequenceInterpolator) (times : List ℚ) :
    Except String (List (List ℚ) × List Bool) :=
  let valid := (seqValidInterval s).intersect times
  (seqSamples s (maskFilter times valid)).map fun d => (d, valid)

/-- A single frame of screen data (spatial array of pixels). -/
abbrev Frame := List (List ℚ)

/-- The array returned by `ScreenTrial.get_data`: a 2-D single frame or a 3-D
frame stack (the caller normalizes 2-D to a one-frame stack, lines 282-283). -/
inductive TrialRaw
  | twoD (f : Frame)
  | threeD (fs : List Frame)

/-- Lines 282-283: `np.expand_dims(data, axis=0)` for 2-D trial data. -/
def TrialRaw.normalize : TrialRaw → List Frame
  | .twoD f => [f]
  | .threeD fs => fs

/-- One parsed `ScreenTrial` (interpolators.py lines 308-376): its metadata
`first_frame_idx` and `num_frames`, and the frame stack `get_data` yields
(for a Blank trial, the synthesized constant stack). -/
structure ScreenTrial where
  first_frame_idx : ℤ
  num_frames : ℕ
  raw : TrialRaw

/-- State of a `ScreenInterpolator` after `__init__` (lines 215-244), with
`rescale=False` (the only configuration the claims quantify over; the
`cv2.resize` path is outside the model).  `image_size` is the inferred
`_image_size` (height, width). -/
structure ScreenInterpolator where
  timestamps : List ℚ
  trials : List ScreenTrial
  image_size : ℕ × ℕ

/-- Lines 230-232: `_data_file_idx`, mapping every global frame position to
the index of its owning trial. -/
def dataFileIdx (trials : List ScreenTrial) : List ℕ :=
  (trials.enum.map fun p => List.replicate p.2.num_frames p.1).flatten

/-- Lines 220-223: `valid_interval = TimeInterval(timestamps[0], timestamps[-1])`
(indexing an empty timestamps file raises in Python; the defaults are never
exercised by the theorems). -/
def screenValidInterval (sc : ScreenInterpolator) : TimeInterval :=
  ⟨sc.timestamps.headD 0, sc.timestamps.getLastD 0⟩

/-- One row of `np.zeros([...] + list(self._image_size))` (line 279). -/
def zeroFrame (sz : ℕ × ℕ) : Frame :=
  List.replicate sz.1 (List.replicate sz.2 0)

/-- Sorted insertion without duplicates, building `np.unique` (line 278). -/
def insSorted (x : ℕ) : List ℕ → List ℕ
  | [] => [x]
  | y :: ys => if x < y then x :: y :: ys else if x = y then y :: ys else y :: insSorted x ys

/-- `np.unique`: the sorted list of distinct values. -/
def npUnique (l : List ℕ) : List ℕ :=
  l.foldl (fun acc x => insSorted x acc) []

/-- Fancy-indexed assignment `out[positions] = frames` (line 285). -/
def scatterSet (out : List Frame) (assignments : List (ℕ × Frame)) : List Frame :=
  assignments.foldl (fun o jf => o.set jf.1 jf.2) out

/-- `ScreenInterpolator.interpolate` (lines 263-287) applied to the already
mask-filtered valid query times: add the `1e-4` epsilon, require strictly
increasing times, binary-search frame indices, assert them in range, then
load each distinct owning trial once and scatter its frames into the
output. -/
def screenSamples (sc : ScreenInterpolator) (vt0 : List ℚ) :
    Except String (List Frame) :=
  let vt := vt0.map fun t => t + 1/10000
  if npAllDiffPos vt then
    let idx : List ℤ := vt.map fun t => (searchsortedLeft sc.timestamps t : ℤ) - 1
    if idx.all fun i => decide (0 ≤ i) && decide (i < (sc.timestamps.length : ℤ)) then do
      let dfi ← optToExcept indexErrorMsg (idx.mapM fun i => pyGet (dataFileIdx sc.trials) i)
      let out0 : List Frame := List.replicate vt.length (zeroFrame sc.image_size)
      (npUnique dfi).foldlM (fun out u => do
        let tr ← optToExcept indexErrorMsg (sc.trials.get? u)
        let dat := tr.raw.normalize
        let positions := (dfi.enum.filter fun p => p.2 == u).map fun p => p.1
        let frames ← optToExcept indexErrorMsg (positions.mapM fun j => do
          let i ← idx.get? j
          pyGet dat (i - tr.first_frame_idx))
        pure (scatterSet out (positions.zip frames))) out0
    else .error ("All times must be within the valid range")
  else .error ("Times must be sorted")

/-- `ScreenInterpolator.interpolate` (lines 263-290), `rescale=False`: compute
the validity mask, restrict the query times, reconstruct frames, and return
them together with the mask. -/
def ScreenInterpolator.interpolate (sc : ScreenInterpolator) (times : List ℚ) :
    Except String (List Frame × List Bool) :=
  let valid := (screenValidInterval sc).intersect times
  (screenSamples sc (maskFilter times valid)).map fun d => (d, valid)

/-- Python `str.capitalize()`: first character uppercased, the rest lowercased. -/
def pyCapitalize (s : String) : String :=
  match s.toList with
  | [] => ""
  | c :: rest => String.mk (c.toUpper :: rest.map Char.toLower)

/-- The concrete classes the factories `Interpolator.create` and
`ScreenTrial.create` can instantiate. -/
inductive CreatedClass
  | interpBase
  | interpSequence
  | interpScreen
  | trialScreen
  | trialImage
  | trialVideo
  | trialBlank
  deriving DecidableEq

/-- The module-level names of interpolators.py ending in `"Interpolator"` or
`"Trial"` — the only globals a constructed class name `modality.capitalize()
+ suffix` can equal (the imports `os, re, typing, warnings, abstractmethod,
Path, cv2, np, fmt, yaml` and the `utils` helpers match neither suffix). -/
def knownGlobalClasses : List String :=
  ["Interpolator", "SequenceInterpolator", "ScreenInterpolator",
    "ScreenTrial", "ImageTrial", "VideoTrial", "BlankTrial"]

/-- `globals()[class_name](...)`: which class a resolved global name builds. -/
def classOf (n : String) : CreatedClass :=
  if n = "SequenceInterpolator" then .interpSequence
  else if n = "ScreenInterpolator" then .interpScreen
  else if n = "ScreenTrial" then .trialScreen
  else if n = "ImageTrial" then .trialImage
  else if n = "VideoTrial" then .trialVideo
  else if n = "BlankTrial" then .trialBlank
  else .interpBase

/-- `Interpolator.create` (interpolators.py lines 57-64): build
`modality.capitalize() + "Interpolator"`, assert it names a module global
(`"Unknown modality"` otherwise), then instantiate it. -/
def interpolatorCreate (modality : String) : Except String CreatedClass :=
  let className := pyCapitalize modality ++ "Interpolator"
  if className ∈ knownGlobalClasses then .ok (classOf className)
  else .error ("Unknown modality: " ++ modality)

/-- `ScreenTrial.create` (lines 326-333): the same dispatch with suffix
`"Trial"`. -/
def screenTrialCreate (modality : String) : Except String CreatedClass :=
  let className := pyCapitalize modality ++ "Trial"
  if className ∈ knownGlobalClasses then .ok (classOf className)
  else .error ("Unknown modality: " ++ modality)

/-- C9: a metadata modality whose constructed class name matches no module
global fails with the `Unknown modality` error at construction time, in both
`Interpolator.create` and `ScreenTrial.create`; each registered tag
instantiates its matching concrete class. -/
theorem modality_dispatch :
    (∀ m : String, (pyCapitalize m ++ "Interpolator") ∉ knownGlobalClasses →
      interpolatorCreate m = .error ("Unknown modality: " ++ m)) ∧
    (∀ m : String, (pyCapitalize m ++ "Trial") ∉ knownGlobalClasses →
      screenTrialCreate m = .error ("Unknown modality: " ++ m)) ∧
    interpolatorCreate "sequence" = .ok .interpSequence ∧
    interpolatorCreate "screen" = .ok .interpScreen ∧
    screenTrialCreate "image" = .ok .trialImage ∧
    screenTrialCreate "video" = .ok .trialVideo ∧
    screenTrialCreate "blank" = .ok .trialBlank := by
  refine ⟨?_, ?_, ?_, ?_, ?_, ?_, ?_⟩
  · intro m hm
    simp only [interpolatorCreate]
    rw [if_neg hm]
  · intro m hm
    simp only [screenTrialCreate]
    rw [if_neg hm]
  all_goals rfl

/-- Witness for C9: the unregistered modality `"audio"` fails in both
factories, and `"sequence"` dispatches to `SequenceInterpolator`. -/
theorem modality_dispatch_witness :
    interpolatorCreate "audio" = .error ("Unknown modality: " ++ "audio") ∧
    screenTrialCreate "audio" = .error ("Unknown modality: " ++ "audio") ∧
    interpolatorCreate "sequence" = .ok .interpSequence := by
  have h := modality_dispatch
  exact ⟨h.1 "audio" (by decide), h.2.1 "audio" (by decide), h.2.2.1⟩

/-- A tiny heap of numpy arrays for stating aliasing/mutation behaviour:
handles are indices into the heap. -/
abbrev Heap := List (List ℚ)

def heapGet (h : Heap) (r : ℕ) : List ℚ := h.getD r []

def heapSet (h : Heap) (r : ℕ) (v : List ℚ) : Heap := h.set r v

/-- `ScreenInterpolator.interpolate` lines 264-266 as heap steps, under numpy
semantics: `valid = self.valid_times(times)` only reads the caller's array;
`valid_times = times[valid]` is advanced (boolean-mask) indexing, which
allocates a fresh array; `valid_times += 1e-4` then mutates that fresh array
in place.  Returns the new heap and the handle of `valid_times`. -/
def screenInterpolateTimesEffect (h : Heap) (timesRef : ℕ) (iv : TimeInterval) :
    Heap × ℕ :=
  let times := heapGet h timesRef
  let valid := iv.intersect times
  let h1 := h ++ [maskFilter times valid]
  let vtRef := h.length
  (heapSet h1 vtRef ((heapGet h1 vtRef).map fun t => t + 1/10000), vtRef)

/-- `SequenceInterpolator.interpolate` lines 127-130 as heap steps: the only
operation touching the caller's array is the copying boolean-mask index
`times[valid]`; nothing is written in place. -/
def seqInterpolateTimesEffect (h : Heap) (timesRef : ℕ) (iv : TimeInterval) :
    Heap × ℕ :=
  let times := heapGet h timesRef
  let valid := iv.intersect times
  (h ++ [maskFilter times valid], h.length)

lemma heap_getD_append (h : Heap) (c : List ℚ) (r : ℕ) (hr : r < h.length) :
    (h ++ [c]).getD r [] = h.getD r [] := by
  rw [List.getD_eq_getD_get?, List.getD_eq_getD_get?, List.get?_append hr]

lemma heap_getD_append_self (h : Heap) (c : List ℚ) :
    (h ++ [c]).getD h.length [] = c := by
  rw [List.getD_eq_getD_get?, List.get?_append_right (le_refl _)]
  simp

lemma heap_getD_set_ne (l : Heap) (i r : ℕ) (v : List ℚ) (hne : i ≠ r) :
    (l.set i v).getD r [] = l.getD r [] := by
  rw [List.getD_eq_getD_get?, List.getD_eq_getD_get?, List.get?_set_ne _ _ hne]

lemma heap_getD_set_self (l : Heap) (i : ℕ) (v : List ℚ) (hi : i < l.length) :
    (l.set i v).getD i [] = v := by
  rw [List.getD_eq_getD_get?, List.get?_set_eq_of_lt _ hi]
  rfl

/-- C10: `interpolate` leaves every pre-existing array — in particular the
caller's `times` array — unchanged; the screen path's epsilon offset lands on
the freshly allocated copy produced by boolean-mask indexing, never on the
input array. -/
theorem interpolate_times_unmutated (h : Heap) (r : ℕ) (timesRef : ℕ)
    (iv : TimeInterval) (hr : r < h.length) :
    heapGet (screenInterpolateTimesEffect h timesRef iv).1 r = heapGet h r ∧
    heapGet (screenInterpolateTimesEffect h timesRef iv).1
        (screenInterpolateTimesEffect h timesRef iv).2
      = (maskFilter (heapGet h timesRef) (iv.intersect (heapGet h timesRef))).map
          (fun t => t + 1/10000) ∧
    heapGet (seqInterpolateTimesEffect h timesRef iv).1 r = heapGet h r := by
  have hne : h.length ≠ r := fun hcontra => absurd (hcontra ▸ hr) (lt_irrefl _)
  refine ⟨?_, ?_, ?_⟩
  · simp only [screenInterpolateTimesEffect, heapGet, heapSet]
    rw [heap_getD_set_ne _ _ _ _ hne, heap_getD_append _ _ _ hr]
  · simp only [screenInterpolateTimesEffect, heapGet, heapSet]
    rw [heap_getD_set_self _ _ _ (by simp), heap_getD_append_self]
  · simp only [seqInterpolateTimesEffect, heapGet]
    rw [heap_getD_append _ _ _ hr]

/-- Witness for C10 on a concrete one-array heap. -/
theorem interpolate_times_unmutated_witness :
    heapGet (screenInterpolateTimesEffect [[1, 2]] 0 ⟨0, 10⟩).1 0 = heapGet [[1, 2]] 0 ∧
    heapGet (seqInterpolateTimesEffect [[1, 2]] 0 ⟨0, 10⟩).1 0 = heapGet [[1, 2]] 0 := by
  have h := interpolate_times_unmutated [[1, 2]] 0 0 ⟨0, 10⟩ (by decide)
  exact ⟨h.1, h.2.2⟩

lemma npAllDiffPos_iff (l : List ℚ) :
    npAllDiffPos l = true ↔ List.Chain' (· < ·) l := by
  induction l with
  | nil => simp [npAllDiffPos]
  | cons a rest ih =>
    cases rest with
    | nil => simp [npAllDiffPos]
    | cons b r2 =>
      rw [npAllDiffPos, Bool.and_eq_true, decide_eq_true_eq, ih, List.chain'_cons]

/-- C7: `ScreenInterpolator.interpolate` adds the fixed `1e-4` epsilon to each
valid query time before frame lookup, and whenever those epsilon-adjusted
valid times are not strictly increasing it fails with the unsorted-query
error — it never reorders or drops such queries. -/
theorem screen_unsorted_query_error (sc : ScreenInterpolator) (times : List ℚ)
    (h : ¬ List.Chain' (· < ·)
      ((maskFilter times ((screenValidInterval sc).intersect times)).map
        fun t => t + 1/10000)) :
    sc.interpolate times = .error ("Times must be sorted") := by
  have hb : npAllDiffPos ((maskFilter times ((screenValidInterval sc).intersect times)).map
      fun t => t + 1/10000) = false := by
    rw [← Bool.not_eq_true, npAllDiffPos_iff]
    exact h
  simp only [ScreenInterpolator.interpolate, screenSamples, hb]
  rfl

/-- Witness for C7: two individually valid but unsorted query times. -/
theorem screen_unsorted_query_error_witness :
    ScreenInterpolator.interpolate ⟨[0, 1], [], (1, 1)⟩ [1/2, 1/4]
      = .error ("Times must be sorted") := by
  apply screen_unsorted_query_error
  intro hc
  have hb := (npAllDiffPos_iff _).mpr hc
  norm_num [maskFilter, npAllDiffPos, screenValidInterval, TimeInterval.intersect,
    List.getLastD] at hb

lemma maskFilter_map {α : Type} (xs : List α) (p : α → Bool) :
    maskFilter xs (xs.map p) = xs.filter p := by
  induction xs with
  | nil => rfl
  | cons a as ih =>
    unfold maskFilter at ih ⊢
    rw [List.map_cons, List.zip_cons_cons, List.filter_cons, List.filter_cons]
    by_cases h : p a
    · rw [if_pos (by simpa using h), if_pos h, List.map_cons, ih]
    · rw [if_neg (by simpa using h), if_neg h, ih]

lemma intersect_eq_map (iv : TimeInterval) (times : List ℚ) :
    iv.intersect times
      = times.map fun t => decide (iv.start ≤ t) && decide (t < iv.«end») := rfl

lemma count_true_intersect (iv : TimeInterval) (times : List ℚ) :
    (iv.intersect times).count true
      = (maskFilter times (iv.intersect times)).length := by
  rw [intersect_eq_map, maskFilter_map, List.count, List.countP_map,
    ← List.countP_eq_length_filter]
  refine List.countP_congr fun t _ => ?_
  simp [Function.comp]

lemma mapM_option_eq_map {α β : Type} (f : α → Option β) (g : α → β) :
    ∀ l : List α, (∀ a ∈ l, f a = some (g a)) → l.mapM f = some (l.map g) := by
  intro l
  induction l with
  | nil => intro _; rfl
  | cons a as ih =>
    intro hall
    rw [List.mapM_cons, hall a (List.mem_cons_self _ _),
      ih fun x hx => hall x (List.mem_cons_of_mem _ hx)]
    rfl

lemma mapM_option_isSome {α β : Type} (f : α → Option β) :
    ∀ l : List α, (∀ a ∈ l, (f a).isSome) → (l.mapM f).isSome := by
  intro l
  induction l with
  | nil => intro _; rw [List.mapM_nil]; rfl
  | cons a as ih =>
    intro hall
    rw [List.mapM_cons]
    obtain ⟨b, hb⟩ := Option.isSome_iff_exists.mp (hall a (List.mem_cons_self _ _))
    obtain ⟨bs, hbs⟩ :=
      Option.isSome_iff_exists.mp (ih fun x hx => hall x (List.mem_cons_of_mem _ hx))
    rw [hb, hbs]
    rfl

lemma mapM_option_length {α β : Type} (f : α → Option β) :
    ∀ (l : List α) (r : List β), l.mapM f = some r → r.length = l.length := by
  intro l
  induction l with
  | nil =>
    intro r h
    rw [List.mapM_nil] at h
    cases h
    rfl
  | cons a as ih =>
    intro r h
    rw [List.mapM_cons] at h
    cases hfa : f a with
    | none => rw [hfa] at h; simp at h
    | some b =>
      rw [hfa] at h
      cases hmm : as.mapM f with
      | none => rw [hmm] at h; simp at h
      | some bs =>
        rw [hmm] at h
        simp only [Option.bind_eq_bind, Option.some_bind, Option.pure_def,
          Option.some.injEq] at h
        subst h
        simp [ih bs hmm]

lemma mapM_option_get? {α β : Type} (f : α → Option β) :
    ∀ (l : List α) (r : List β), l.mapM f = some r →
      ∀ (i : ℕ) (a : α), l.get? i = some a → r.get? i = f a := by
  intro l
  induction l with
  | nil => intro r h i a ha; simp at ha
  | cons x xs ih =>
    intro r h i a ha
    rw [List.mapM_cons] at h
    cases hfx : f x with
    | none => rw [hfx] at h; simp at h
    | some b =>
      rw [hfx] at h
      cases hxs : xs.mapM f with
      | none => rw [hxs] at h; simp at h
      | some bs =>
        rw [hxs] at h
        simp only [Option.bind_eq_bind, Option.some_bind, Option.pure_def,
          Option.some.injEq] at h
        subst h
        cases i with
        | zero =>
          simp only [List.get?] at ha ⊢
          cases ha
          rw [hfx]
        | succ n =>
          simp only [List.get?] at ha ⊢
          exact ih bs hxs n a ha

lemma pyGet_nonneg {α : Type} (l : List α) (i : ℤ) (h0 : 0 ≤ i) :
    pyGet l i = l.get? i.toNat := by
  rw [pyGet, if_pos h0]

lemma pyGet_some {α : Type} (l : List α) (i : ℤ) (h0 : 0 ≤ i)
    (h1 : i < (l.length : ℤ)) :
    ∃ a, pyGet l i = some a ∧ l.get? i.toNat = some a := by
  have hlt : i.toNat < l.length := by omega
  exact ⟨l.get ⟨i.toNat, hlt⟩, by rw [pyGet_nonneg _ _ h0, List.get?_eq_get hlt],
    List.get?_eq_get hlt⟩

lemma floor_div_nonneg {t s dt : ℚ} (hdt : 0 < dt) (h : s ≤ t) :
    0 ≤ ⌊(t - s) / dt⌋ := by
  apply Int.floor_nonneg.mpr
  exact div_nonneg (by linarith) (le_of_lt hdt)

lemma floor_div_lt {t s dt : ℚ} (hdt : 0 < dt) {n : ℕ} (h : t - s < n * dt) :
    ⌊(t - s) / dt⌋ < (n : ℤ) := by
  apply Int.floor_lt.mpr
  rw [div_lt_iff hdt]
  exact_mod_cast h

lemma takeAlongAxis0_entry (data : List (List ℚ)) (idx : List (List ℤ))
    (res : List (List ℚ)) (h : takeAlongAxis0 data idx = some res)
    (i c : ℕ) (row : List ℤ) (j : ℤ)
    (hrow : idx.get? i = some row) (hj : row.get? c = some j)
    (h0 : 0 ≤ j) (h1 : j < (data.length : ℤ)) :
    at2 res i c = at2 data j.toNat c := by
  unfold takeAlongAxis0 at h
  split at h
  case isFalse => simp at h
  case isTrue hguard =>
    have hresRow := mapM_option_get? _ idx res h i row hrow
    have hi : i < idx.length := by
      rcases List.get?_eq_some.mp hrow with ⟨hlt, _⟩
      exact hlt
    have hreslen := mapM_option_length _ idx res h
    have hiRes : i < res.length := by omega
    obtain ⟨resRow, hresRowSome⟩ :=
      Option.isSome_iff_exists.mp (by rw [List.get?_eq_get hiRes]; rfl :
        (res.get? i).isSome)
    have hF : row.enum.mapM (fun ci => do
        let r ← pyGet data ci.2
        r.get? ci.1) = some resRow := by
      rw [← hresRow, hresRowSome]
    have henum : row.enum.get? c = some (c, j) := by
      rw [List.get?_enum, hj]
      rfl
    have hinner := mapM_option_get? _ row.enum resRow hF c (c, j) henum
    obtain ⟨drow, hdrow, hdrow2⟩ := pyGet_some data j h0 h1
    rw [hdrow] at hinner
    simp only [Option.bind_eq_bind, Option.some_bind] at hinner
    have hc : c < row.length := by
      rcases List.get?_eq_some.mp hj with ⟨hlt, _⟩
      exact hlt
    have hcRes : c < resRow.length := by
      have := mapM_option_length _ row.enum resRow hF
      rw [List.enum_length] at this
      omega
    obtain ⟨v, hv⟩ := Option.isSome_iff_exists.mp
      (by rw [List.get?_eq_get hcRes]; rfl : (resRow.get? c).isSome)
    rw [hv] at hinner
    have h2 : res.getD i [] = resRow := by
      rw [List.getD_eq_getD_get?, hresRowSome]
      rfl
    have h3 : data.getD j.toNat [] = drow := by
      rw [List.getD_eq_getD_get?, hdrow2]
      rfl
    have h4 : resRow.getD c 0 = v := by
      rw [List.getD_eq_getD_get?, hv]
      rfl
    have h5 : drow.getD c 0 = v := by
      rw [List.getD_eq_getD_get?, ← hinner]
      rfl
    show (res.getD i []).getD c 0 = (data.getD j.toNat []).getD c 0
    rw [h2, h3, h4, h5]

lemma seq_interpolate_ok (s : SequenceInterpolator) (times : List ℚ)
    (samples : List (List ℚ)) (mask : List Bool)
    (h : s.interpolate times = .ok (samples, mask)) :
    seqSamples s (maskFilter times ((seqValidInterval s).intersect times))
        = .ok samples ∧
    mask = (seqValidInterval s).intersect times := by
  unfold SequenceInterpolator.interpolate at h
  dsimp only at h
  cases hs : seqSamples s (maskFilter times ((seqValidInterval s).intersect times)) with
  | error e => rw [hs] at h; simp [Except.map] at h
  | ok d =>
    rw [hs] at h
    simp only [Except.map, Except.ok.injEq, Prod.mk.injEq] at h
    exact ⟨by rw [h.1], h.2.symm⟩

lemma floor_nonneg' {x dt : ℚ} (hdt : 0 < dt) (h : 0 ≤ x) : 0 ≤ ⌊x / dt⌋ :=
  Int.floor_nonneg.mpr (div_nonneg h (le_of_lt hdt))

lemma mem_maskFilter_intersect (iv : TimeInterval) (times : List ℚ) (t : ℚ)
    (ht : t ∈ maskFilter times (iv.intersect times)) :
    iv.start ≤ t ∧ t < iv.«end» := by
  rw [intersect_eq_map, maskFilter_map] at ht
  have h := (List.mem_filter.mp ht).2
  simpa using h

/-- C2: nearest-neighbor reconstruction.  With per-channel phase shifts, entry
`(i, c)` of the returned samples is the raw store entry at row
`⌊(T_i − phase_shifts[c] − start_time) / time_delta⌋`, gathered per channel;
without phase shifts, every valid query time `T_i` returns, as row `i` of the
samples, the raw store row at index `⌊(T_i − start_time) / time_delta⌋`
unchanged; in particular querying the exact raw sample time
`start_time + k·time_delta` returns raw row `k` unchanged, for every
channel. -/
theorem seq_nearest_neighbor_spec (s : SequenceInterpolator) :
    (∀ (ps : List ℚ) (times : List ℚ) (samples : List (List ℚ)) (mask : List Bool)
      (i c : ℕ) (t : ℚ),
      s.interpolation_mode = "nearest_neighbor" →
      s.phase_shifts = some ps →
      s.interpolate times = .ok (samples, mask) →
      (maskFilter times ((seqValidInterval s).intersect times)).get? i = some t →
      0 ≤ ⌊(t - ps.getD c 0 - s.start_time) / s.time_delta⌋ →
      ⌊(t - ps.getD c 0 - s.start_time) / s.time_delta⌋ < (s.data.length : ℤ) →
      c < ps.length →
      at2 samples i c
        = at2 s.data (⌊(t - ps.getD c 0 - s.start_time) / s.time_delta⌋).toNat c) ∧
    (∀ (times : List ℚ) (samples : List (List ℚ)) (mask : List Bool)
      (i : ℕ) (t : ℚ),
      s.interpolation_mode = "nearest_neighbor" →
      s.phase_shifts = none →
      0 < s.time_delta →
      s.interpolate times = .ok (samples, mask) →
      (maskFilter times ((seqValidInterval s).intersect times)).get? i = some t →
      samples.get? i = s.data.get? (⌊(t - s.start_time) / s.time_delta⌋).toNat) ∧
    (∀ k : ℕ,
      s.interpolation_mode = "nearest_neighbor" →
      s.phase_shifts = none →
      0 < s.time_delta →
      k < s.data.length →
      s.start_time + k * s.time_delta < s.end_time →
      s.interpolate [s.start_time + k * s.time_delta]
        = .ok ([s.data.getD k []], [true])) := by
  refine ⟨?_, ?_, ?_⟩
  · intro ps times samples mask i c t hmode hps hrun hget h0 h1 hc
    obtain ⟨hsamp, _⟩ := seq_interpolate_ok s times samples mask hrun
    unfold seqSamples at hsamp
    rw [hps] at hsamp
    dsimp only at hsamp
    cases htaa : takeAlongAxis0 s.data
        ((maskFilter times ((seqValidInterval s).intersect times)).map fun t =>
          ps.map fun p => ⌊(t - p - s.start_time) / s.time_delta⌋) with
    | none => rw [htaa] at hsamp; simp at hsamp
    | some dat =>
      rw [htaa] at hsamp
      dsimp only at hsamp
      rw [if_pos hmode] at hsamp
      have hds : dat = samples := Except.ok.inj hsamp
      subst hds
      refine takeAlongAxis0_entry s.data _ _ htaa i c
        (ps.map fun p => ⌊(t - p - s.start_time) / s.time_delta⌋) _ ?_ ?_ h0 h1
      · rw [List.get?_map, hget]
        rfl
      · rw [List.get?_map, List.get?_eq_get hc, List.getD_eq_get _ _ hc]
        rfl
  · intro times samples mask i t hmode hps hdt hrun hget
    obtain ⟨hsamp, _⟩ := seq_interpolate_ok s times samples mask hrun
    unfold seqSamples at hsamp
    rw [hps] at hsamp
    dsimp only at hsamp
    cases hnf : npFancyIndex s.data
        ((maskFilter times ((seqValidInterval s).intersect times)).map fun u =>
          ⌊(u - s.start_time) / s.time_delta⌋) with
    | none => rw [hnf] at hsamp; simp at hsamp
    | some dat =>
      rw [hnf] at hsamp
      dsimp only at hsamp
      rw [if_pos hmode] at hsamp
      have hds : dat = samples := Except.ok.inj hsamp
      subst hds
      have hts : s.start_time ≤ t := by
        have hmem : t ∈ maskFilter times ((seqValidInterval s).intersect times) :=
          List.get?_mem hget
        have hiv := mem_maskFilter_intersect _ _ _ hmem
        rw [show seqValidInterval s = ⟨s.start_time, s.end_time⟩ from by
          unfold seqValidInterval; rw [hps]] at hiv
        exact hiv.1
      have h0 : 0 ≤ ⌊(t - s.start_time) / s.time_delta⌋ :=
        floor_nonneg' hdt (by linarith)
      have hnf' : (((maskFilter times ((seqValidInterval s).intersect times)).map
            fun u => ⌊(u - s.start_time) / s.time_delta⌋).mapM
          fun j => pyGet s.data j) = some dat := hnf
      have hmg := mapM_option_get? (fun j => pyGet s.data j) _ _ hnf' i
        ⌊(t - s.start_time) / s.time_delta⌋ (by rw [List.get?_map, hget]; rfl)
      rw [hmg]
      exact pyGet_nonneg _ _ h0
  · intro k hmode hps hdt hk hin
    have hle : s.start_time ≤ s.start_time + k * s.time_delta := by
      have hnn : (0:ℚ) ≤ (k : ℚ) * s.time_delta :=
        mul_nonneg (Nat.cast_nonneg k) (le_of_lt hdt)
      linarith
    have hiv : seqValidInterval s = ⟨s.start_time, s.end_time⟩ := by
      unfold seqValidInterval
      rw [hps]
    have hvalid : (seqValidInterval s).intersect [s.start_time + k * s.time_delta]
        = [true] := by
      rw [hiv]
      simp [TimeInterval.intersect, hle, hin]
    have hidx : ⌊(s.start_time + k * s.time_delta - s.start_time) / s.time_delta⌋
        = (k : ℤ) := by
      rw [add_sub_cancel_left, mul_div_cancel_right₀ _ (ne_of_gt hdt), Int.floor_natCast]
    have hnf : npFancyIndex s.data [(k : ℤ)] = some [s.data.getD k []] := by
      unfold npFancyIndex
      rw [List.mapM_cons, List.mapM_nil,
        pyGet_nonneg _ _ (Int.natCast_nonneg k), Int.toNat_natCast,
        List.get?_eq_get hk, List.getD_eq_get _ _ hk]
      rfl
    unfold SequenceInterpolator.interpolate
    dsimp only
    rw [hvalid]
    have hmf : maskFilter [s.start_time + k * s.time_delta] [true]
        = [s.start_time + k * s.time_delta] := rfl
    rw [hmf]
    unfold seqSamples
    rw [hps]
    dsimp only
    rw [show ([s.start_time + k * s.time_delta].map fun t =>
        ⌊(t - s.start_time) / s.time_delta⌋) = [(k : ℤ)] by
      rw [List.map_cons, List.map_nil, hidx]]
    rw [hnf]
    dsimp only
    rw [if_pos hmode]
    rfl

lemma c2wit_run :
    SequenceInterpolator.interpolate
        ⟨[[10, 20], [11, 21], [12, 22]], 0, 3, 1, some [0, 0], "nearest_neighbor", 5, false⟩
        [3/2]
      = .ok ([[11, 21]], [true]) := by
  norm_num [SequenceInterpolator.interpolate, seqSamples, seqValidInterval,
    TimeInterval.intersect, maskFilter, listMaxQ, listMinQ, takeAlongAxis0,
    pyGet, List.enum, List.enumFrom, List.mapM_cons, List.mapM_nil, Except.map]
  rfl

lemma c2wit_run2 :
    SequenceInterpolator.interpolate
        ⟨[[10], [11], [12]], 0, 3, 1, none, "nearest_neighbor", 5, false⟩
        [3/2]
      = .ok ([[11]], [true]) := by
  norm_num [SequenceInterpolator.interpolate, seqSamples, seqValidInterval,
    TimeInterval.intersect, maskFilter, npFancyIndex,
    pyGet, List.mapM_cons, List.mapM_nil, Except.map]
  rfl

/-- Witness for C2: a phase-shifted nearest-neighbor lookup lands on the
formula's raw row, a no-shift lookup at a non-sample time returns the raw row
at the floor index, and an exact-sample-time query returns the raw row. -/
theorem seq_nearest_neighbor_spec_witness :
    (at2 [[11, 21]] 0 0
      = at2 [[10, 20], [11, 21], [12, 22]]
          (⌊((3/2 : ℚ) - [(0 : ℚ), 0].getD 0 0 - 0) / 1⌋).toNat 0) ∧
    (([[11]] : List (List ℚ)).get? 0
      = ([[10], [11], [12]] : List (List ℚ)).get? (⌊((3/2 : ℚ) - 0) / 1⌋).toNat) ∧
    SequenceInterpolator.interpolate
        ⟨[[10], [11], [12]], 0, 3, 1, none, "nearest_neighbor", 5, false⟩
        [(0 : ℚ) + (1 : ℕ) * 1]
      = .ok ([[11]], [true]) := by
  refine ⟨?_, ?_, ?_⟩
  · exact (seq_nearest_neighbor_spec
      ⟨[[10, 20], [11, 21], [12, 22]], 0, 3, 1, some [0, 0], "nearest_neighbor", 5, false⟩).1
      [0, 0] [3/2] [[11, 21]] [true] 0 0 (3/2) rfl rfl c2wit_run
      (by norm_num [maskFilter, seqValidInterval, TimeInterval.intersect, listMaxQ, listMinQ])
      (by norm_num [List.getD]) (by norm_num [List.getD]) (by norm_num)
  · exact (seq_nearest_neighbor_spec
      ⟨[[10], [11], [12]], 0, 3, 1, none, "nearest_neighbor", 5, false⟩).2.1
      [3/2] [[11]] [true] 0 (3/2) rfl rfl (by norm_num : (0:ℚ) < 1) c2wit_run2
      (by norm_num [maskFilter, seqValidInterval, TimeInterval.intersect])
  · exact (seq_nearest_neighbor_spec
      ⟨[[10], [11], [12]], 0, 3, 1, none, "nearest_neighbor", 5, false⟩).2.2
      1 rfl rfl (by norm_num : (0:ℚ) < 1) (by norm_num : (1:ℕ) < 3)
      (by norm_num : (0:ℚ) + (1:ℕ) * 1 < 3)


lemma floor_lt' {x dt : ℚ} (hdt : 0 < dt) {n : ℕ} (h : x < n * dt) :
    ⌊x / dt⌋ < (n : ℤ) := by
  apply Int.floor_lt.mpr
  rw [div_lt_iff hdt]
  exact_mod_cast h

lemma takeAlongAxis0_isSome (data : List (List ℚ)) (idx : List (List ℤ))
    (hguard : ∀ row ∈ idx, row.length = (data.headD []).length)
    (hrect : ∀ row ∈ data, row.length = (data.headD []).length)
    (hbound : ∀ row ∈ idx, ∀ j ∈ row, 0 ≤ j ∧ j < (data.length : ℤ)) :
    (takeAlongAxis0 data idx).isSome := by
  unfold takeAlongAxis0
  rw [if_pos]
  · apply mapM_option_isSome
    intro row hrow
    apply mapM_option_isSome
    intro ci hci
    obtain ⟨n, hn⟩ := List.get?_of_mem hci
    rw [List.get?_enum] at hn
    cases hrowget : row.get? n with
    | none => rw [hrowget] at hn; cases hn
    | some j =>
      rw [hrowget] at hn
      have hci2 : ci = (n, j) := by
        cases hn
        rfl
      subst hci2
      obtain ⟨hj0, hj1⟩ := hbound row hrow j (List.get?_mem hrowget)
      obtain ⟨drow, hdrow, hdrow2⟩ := pyGet_some data j hj0 hj1
      dsimp only
      rw [hdrow]
      simp only [Option.bind_eq_bind, Option.some_bind]
      have hnlt : n < row.length := (List.get?_eq_some.mp hrowget).1
      have hdlen : drow.length = (data.headD []).length :=
        hrect drow (List.get?_mem hdrow2)
      have hnd : n < drow.length := by
        rw [hdlen, ← hguard row hrow]
        exact hnlt
      rw [List.get?_eq_get hnd]
      rfl
  · rw [List.all_eq_true]
    intro row hrow
    exact beq_iff_eq.mpr (hguard row hrow)

/-- C8: a `SequenceInterpolator` carrying an `interpolation_mode` other than
`"nearest_neighbor"` or `"linear"` is constructed without complaint (the
constructor stores the mode unchecked), and `interpolate` — here on a query
with at least one valid time, over a consistent store — fails with the
unsupported-mode error raised after the raw gather. -/
theorem seq_unknown_mode_error (s : SequenceInterpolator) (times : List ℚ)
    (hmode1 : s.interpolation_mode ≠ "nearest_neighbor")
    (hmode2 : s.interpolation_mode ≠ "linear")
    (hdt : 0 < s.time_delta)
    (hn : s.end_time ≤ s.start_time + s.data.length * s.time_delta)
    (hrect : ∀ row ∈ s.data, row.length = (s.data.headD []).length)
    (hps : ∀ ps, s.phase_shifts = some ps →
      ps ≠ [] ∧ ps.length = (s.data.headD []).length)
    (_hval : maskFilter times ((seqValidInterval s).intersect times) ≠ []) :
    s.interpolate times = .error modeErrorMsg := by
  unfold SequenceInterpolator.interpolate
  dsimp only
  suffices h : seqSamples s (maskFilter times ((seqValidInterval s).intersect times))
      = .error modeErrorMsg by
    rw [h]
    rfl
  unfold seqSamples
  cases hp : s.phase_shifts with
  | none =>
    dsimp only
    have hiv : seqValidInterval s = ⟨s.start_time, s.end_time⟩ := by
      unfold seqValidInterval
      rw [hp]
    have hsome : (npFancyIndex s.data
        ((maskFilter times ((seqValidInterval s).intersect times)).map fun t =>
          ⌊(t - s.start_time) / s.time_delta⌋)).isSome := by
      apply mapM_option_isSome
      intro i hi
      obtain ⟨t, ht, rfl⟩ := List.mem_map.mp hi
      have hmem := mem_maskFilter_intersect _ _ _ ht
      rw [hiv] at hmem
      obtain ⟨hm1, hm2⟩ := hmem
      dsimp only at hm1 hm2
      have h0 : 0 ≤ ⌊(t - s.start_time) / s.time_delta⌋ :=
        floor_nonneg' hdt (by linarith)
      have h1 : ⌊(t - s.start_time) / s.time_delta⌋ < (s.data.length : ℤ) :=
        floor_lt' hdt (by linarith)
      obtain ⟨a, ha, _⟩ := pyGet_some _ _ h0 h1
      rw [ha]
      rfl
    obtain ⟨dat, hdat⟩ := Option.isSome_iff_exists.mp hsome
    rw [hdat]
    dsimp only
    rw [if_neg hmode1, if_neg hmode2]
  | some ps =>
    obtain ⟨hne, hlen⟩ := hps ps hp
    dsimp only
    have hiv : seqValidInterval s
        = ⟨s.start_time + listMaxQ ps, s.end_time + listMinQ ps⟩ := by
      unfold seqValidInterval
      rw [hp]
    have hsome := takeAlongAxis0_isSome s.data
      ((maskFilter times ((seqValidInterval s).intersect times)).map fun t =>
        ps.map fun p => ⌊(t - p - s.start_time) / s.time_delta⌋)
      (by
        intro row hrow
        obtain ⟨t, _, rfl⟩ := List.mem_map.mp hrow
        rw [List.length_map]
        exact hlen)
      hrect
      (by
        intro row hrow j hj
        obtain ⟨t, ht, rfl⟩ := List.mem_map.mp hrow
        obtain ⟨p, hpmem, rfl⟩ := List.mem_map.mp hj
        have hmem := mem_maskFilter_intersect _ _ _ ht
        rw [hiv] at hmem
        obtain ⟨hm1, hm2⟩ := hmem
        dsimp only at hm1 hm2
        have hple : p ≤ listMaxQ ps := listMaxQ_ge p hpmem
        have hpge : listMinQ ps ≤ p := listMinQ_le p hpmem
        constructor
        · exact floor_nonneg' hdt (by linarith)
        · exact floor_lt' hdt (by linarith))
    obtain ⟨dat, hdat⟩ := Option.isSome_iff_exists.mp hsome
    rw [hdat]
    dsimp only
    rw [if_neg hmode1, if_neg hmode2]

/-- Witness for C8: mode `"cubic"` on a one-sample store fails on the first
valid query. -/
theorem seq_unknown_mode_error_witness :
    SequenceInterpolator.interpolate ⟨[[5]], 0, 1, 1, none, "cubic", 5, false⟩ [0]
      = .error modeErrorMsg := by
  apply seq_unknown_mode_error
  · decide
  · decide
  · exact (by norm_num : (0:ℚ) < 1)
  · exact (by norm_num : (1:ℚ) ≤ 0 + (1:ℕ) * 1)
  · exact (by simp : ∀ row ∈ [[(5:ℚ)]], row.length = 1)
  · exact fun ps h => nomatch h
  · show maskFilter [0] ((seqValidInterval _).intersect [0]) ≠ []
    norm_num [maskFilter, seqValidInterval, TimeInterval.intersect]

lemma foldl_min_of_le_int : ∀ (xs : List ℤ) (a : ℤ),
    (∀ x ∈ xs, a ≤ x) → xs.foldl min a = a := by
  intro xs
  induction xs with
  | nil => intro a _; rfl
  | cons y ys ih =>
    intro a h
    rw [List.foldl_cons, min_eq_left (h y (List.mem_cons_self _ _))]
    exact ih a fun x hx => h x (List.mem_cons_of_mem _ hx)

lemma foldl_min_le_int (xs : List ℤ) : ∀ a : ℤ, ∀ x ∈ a :: xs, xs.foldl min a ≤ x := by
  induction xs with
  | nil =>
    intro a x hx
    rw [List.mem_singleton] at hx
    simp [hx]
  | cons y ys ih =>
    intro a x hx
    rw [List.foldl_cons]
    rcases List.mem_cons.mp hx with h | h
    · rw [h]
      exact le_trans (ih (min a y) (min a y) (List.mem_cons_self _ _)) (min_le_left a y)
    · rcases List.mem_cons.mp h with h | h
      · rw [h]
        exact le_trans (ih (min a y) (min a y) (List.mem_cons_self _ _)) (min_le_right a y)
      · exact ih (min a y) x (List.mem_cons_of_mem _ h)

lemma foldl_min_mem_int (xs : List ℤ) : ∀ a : ℤ, xs.foldl min a ∈ a :: xs := by
  induction xs with
  | nil => intro a; simp
  | cons x xs ih =>
    intro a
    have h := ih (min a x)
    rw [List.foldl_cons]
    rcases List.mem_cons.mp h with h | h
    · rcases min_choice a x with hm | hm
      · rw [h, hm]; exact List.mem_cons_self _ _
      · rw [h, hm]; exact List.mem_cons_of_mem _ (List.mem_cons_self _ _)
    · exact List.mem_cons_of_mem _ (List.mem_cons_of_mem _ h)

lemma foldl_max_mem_int (xs : List ℤ) : ∀ a : ℤ, xs.foldl max a ∈ a :: xs := by
  induction xs with
  | nil => intro a; simp
  | cons x xs ih =>
    intro a
    have h := ih (max a x)
    rw [List.foldl_cons]
    rcases List.mem_cons.mp h with h | h
    · rcases max_choice a x with hm | hm
      · rw [h, hm]; exact List.mem_cons_self _ _
      · rw [h, hm]; exact List.mem_cons_of_mem _ (List.mem_cons_self _ _)
    · exact List.mem_cons_of_mem _ (List.mem_cons_of_mem _ h)

lemma listMinI_le {l : List ℤ} : ∀ x ∈ l, listMinI l ≤ x := by
  cases l with
  | nil => intro x hx; simp at hx
  | cons y ys => intro x hx; exact foldl_min_le_int ys y x hx

lemma listMinI_mem {l : List ℤ} (h : l ≠ []) : listMinI l ∈ l := by
  cases l with
  | nil => simp at h
  | cons x xs => exact foldl_min_mem_int xs x

lemma listMaxI_mem {l : List ℤ} (h : l ≠ []) : listMaxI l ∈ l := by
  cases l with
  | nil => simp at h
  | cons x xs => exact foldl_max_mem_int xs x

lemma listMinI_cons_sorted (x : ℤ) (xs : List ℤ)
    (h : List.Chain' (· ≤ ·) (x :: xs)) : listMinI (x :: xs) = x := by
  unfold listMinI
  apply foldl_min_of_le_int
  have hp := List.chain'_iff_pairwise.mp h
  exact fun y hy => (List.pairwise_cons.mp hp).1 y hy

lemma foldl_max_sorted_int : ∀ (xs : List ℤ) (a : ℤ),
    List.Chain' (· ≤ ·) (a :: xs) → xs.foldl max a = xs.getLastD a := by
  intro xs
  induction xs with
  | nil => intro a _; rfl
  | cons y ys ih =>
    intro a h
    rw [List.foldl_cons, List.getLastD_cons]
    obtain ⟨h1, h2⟩ := List.chain'_cons.mp h
    rw [max_eq_right h1]
    exact ih y h2

lemma listMaxI_cons_sorted (x : ℤ) (xs : List ℤ)
    (h : List.Chain' (· ≤ ·) (x :: xs)) : listMaxI (x :: xs) = xs.getLastD x :=
  foldl_max_sorted_int xs x h

lemma maskFilter_sorted (iv : TimeInterval) (times : List ℚ)
    (h : List.Chain' (· ≤ ·) times) :
    List.Chain' (· ≤ ·) (maskFilter times (iv.intersect times)) := by
  rw [intersect_eq_map, maskFilter_map]
  exact List.chain'_iff_pairwise.mpr
    ((List.chain'_iff_pairwise.mp h).filter _)

lemma pySlice_length_of_bounds {α : Type} (l : List α) (a b : ℤ)
    (h0 : 0 ≤ a) (hab : a ≤ b) (hb : b ≤ (l.length : ℤ)) :
    (pySlice l a b).length = (b - a).toNat := by
  unfold pySlice
  dsimp only
  rw [if_neg (by omega : ¬ a < 0), if_neg (by omega : ¬ b < 0),
    min_eq_left (by omega : a ≤ (l.length : ℤ)), min_eq_left hb,
    List.length_drop, List.length_take]
  omega

lemma arangeZ_length (a b : ℤ) : (arangeZ a b).length = (b - a).toNat := by
  unfold arangeZ
  rw [List.length_map, List.length_range]

/-- C3: in linear mode without phase shifts, the raw window handed to the
interpolation routine is one contiguous slice of the store covering
`[min(idx) − interp_window, max(idx) + interp_window]` clamped to the store's
bounds, the matching raw timestamps are `start_time + k·time_delta` for each
window index `k`, the window and its timestamp array have the same length,
and the result is exactly the routine's output on these arguments.
Hypotheses: sorted query times (the documented caller contract), consistent
metadata (`end_time = start_time + n_timestamps·time_delta`), and at least
one valid query time. -/
theorem seq_linear_window (s : SequenceInterpolator) (times : List ℚ)
    (vt : List ℚ) (idxs : List ℤ) (si ei : ℤ)
    (hmode : s.interpolation_mode = "linear")
    (hshift : s.phase_shifts = none)
    (hdt : 0 < s.time_delta)
    (hconsist : s.end_time = s.start_time + s.data.length * s.time_delta)
    (hsorted : List.Chain' (· ≤ ·) times)
    (hvt : vt = maskFilter times ((seqValidInterval s).intersect times))
    (hne : vt ≠ [])
    (hidx : idxs = vt.map fun t => ⌊(t - s.start_time) / s.time_delta⌋)
    (hsi : si = max 0 (listMinI idxs - (s.interp_window : ℤ)))
    (hei : ei = min (listMaxI idxs + (s.interp_window : ℤ)) (s.data.length : ℤ)) :
    s.interpolate times
        = .ok (linear_interpolate_sequences (pySlice s.data si ei)
            ((arangeZ si ei).map fun k : ℤ => (k : ℚ) * s.time_delta + s.start_time)
            vt s.keep_nans,
          (seqValidInterval s).intersect times) ∧
    (pySlice s.data si ei).length
        = ((arangeZ si ei).map fun k : ℤ => (k : ℚ) * s.time_delta + s.start_time).length := by
  subst hei
  subst hsi
  subst hidx
  subst hvt
  have hiv : seqValidInterval s = ⟨s.start_time, s.end_time⟩ := by
    unfold seqValidInterval
    rw [hshift]
  have hbnd : ∀ i ∈ (maskFilter times ((seqValidInterval s).intersect times)).map
      (fun t => ⌊(t - s.start_time) / s.time_delta⌋),
      0 ≤ i ∧ i < (s.data.length : ℤ) := by
    intro i hi
    obtain ⟨t, ht, rfl⟩ := List.mem_map.mp hi
    have hmem := mem_maskFilter_intersect _ _ _ ht
    rw [hiv] at hmem
    obtain ⟨hm1, hm2⟩ := hmem
    dsimp only at hm1 hm2
    exact ⟨floor_nonneg' hdt (by linarith), floor_lt' hdt (by linarith)⟩
  have hsortvt := maskFilter_sorted (seqValidInterval s) times hsorted
  cases hvtc : maskFilter times ((seqValidInterval s).intersect times) with
  | nil => exact absurd hvtc hne
  | cons t0 rest =>
    rw [hvtc] at hsortvt hbnd
    rw [List.map_cons] at hbnd ⊢
    have hidxsort : List.Chain' (· ≤ ·)
        ((t0 :: rest).map fun t => ⌊(t - s.start_time) / s.time_delta⌋) := by
      refine List.chain'_map_of_chain' _ ?_ hsortvt
      intro a b hab
      exact Int.floor_mono ((div_le_div_right hdt).mpr (by linarith))
    rw [List.map_cons] at hidxsort
    have hmin := listMinI_cons_sorted _ _ hidxsort
    have hmax := listMaxI_cons_sorted _ _ hidxsort
    rw [hmin, hmax]
    have hfloorN : ⌊((seqValidInterval s).«end» - (seqValidInterval s).start)
        / s.time_delta⌋ = (s.data.length : ℤ) := by
      rw [hiv]
      dsimp only
      rw [hconsist, add_sub_cancel_left,
        mul_div_cancel_right₀ _ (ne_of_gt hdt), Int.floor_natCast]
    have hw : (0 : ℤ) ≤ (s.interp_window : ℤ) := Int.natCast_nonneg _
    obtain ⟨h00, h01⟩ := hbnd _ (List.mem_cons_self _ _)
    have hiNmem : (rest.map fun t => ⌊(t - s.start_time) / s.time_delta⌋).getLastD
        ⌊(t0 - s.start_time) / s.time_delta⌋
        ∈ (⌊(t0 - s.start_time) / s.time_delta⌋
          :: rest.map fun t => ⌊(t - s.start_time) / s.time_delta⌋) := by
      rw [← hmax]
      exact listMaxI_mem (by simp)
    obtain ⟨hN0, hN1⟩ := hbnd _ hiNmem
    have hlohi : ⌊(t0 - s.start_time) / s.time_delta⌋
        ≤ (rest.map fun t => ⌊(t - s.start_time) / s.time_delta⌋).getLastD
            ⌊(t0 - s.start_time) / s.time_delta⌋ := by
      have h := listMinI_le _ hiNmem
      rw [hmin] at h
      exact h
    have hsi0 : (0 : ℤ) ≤ max 0 (⌊(t0 - s.start_time) / s.time_delta⌋
        - (s.interp_window : ℤ)) := le_max_left _ _
    have hsiei : max 0 (⌊(t0 - s.start_time) / s.time_delta⌋ - (s.interp_window : ℤ))
        ≤ min ((rest.map fun t => ⌊(t - s.start_time) / s.time_delta⌋).getLastD
              ⌊(t0 - s.start_time) / s.time_delta⌋
            + (s.interp_window : ℤ)) (s.data.length : ℤ) := by
      apply max_le
      · exact le_min (by linarith) (Int.natCast_nonneg _)
      · exact le_min (by linarith) (by linarith)
    have heiN : min ((rest.map fun t => ⌊(t - s.start_time) / s.time_delta⌋).getLastD
          ⌊(t0 - s.start_time) / s.time_delta⌋
        + (s.interp_window : ℤ)) (s.data.length : ℤ) ≤ (s.data.length : ℤ) :=
      min_le_right _ _
    have hlen : (pySlice s.data
          (max 0 (⌊(t0 - s.start_time) / s.time_delta⌋ - (s.interp_window : ℤ)))
          (min ((rest.map fun t => ⌊(t - s.start_time) / s.time_delta⌋).getLastD
              ⌊(t0 - s.start_time) / s.time_delta⌋
            + (s.interp_window : ℤ)) (s.data.length : ℤ))).length
        = (arangeZ
            (max 0 (⌊(t0 - s.start_time) / s.time_delta⌋ - (s.interp_window : ℤ)))
            (min ((rest.map fun t => ⌊(t - s.start_time) / s.time_delta⌋).getLastD
                ⌊(t0 - s.start_time) / s.time_delta⌋
              + (s.interp_window : ℤ)) (s.data.length : ℤ))).length := by
      rw [pySlice_length_of_bounds _ _ _ hsi0 hsiei heiN, arangeZ_length]
    have hg : (npFancyIndex s.data
        (⌊(t0 - s.start_time) / s.time_delta⌋
          :: rest.map fun t => ⌊(t - s.start_time) / s.time_delta⌋)).isSome := by
      apply mapM_option_isSome
      intro i hi
      obtain ⟨hi0, hi1⟩ := hbnd i hi
      obtain ⟨a, ha, _⟩ := pyGet_some s.data i hi0 hi1
      rw [ha]
      rfl
    obtain ⟨dat, hdat⟩ := Option.isSome_iff_exists.mp hg
    constructor
    · unfold SequenceInterpolator.interpolate
      dsimp only
      rw [hvtc]
      unfold seqSamples
      rw [hshift]
      dsimp only
      rw [List.map_cons, hdat]
      dsimp only
      rw [hmode, if_neg (by decide : ¬ ("linear" = "nearest_neighbor")), if_pos rfl]
      unfold seqLinearNoShift
      dsimp only
      rw [hfloorN]
      rw [if_pos]
      · rw [hiv]
        rfl
      · rw [List.length_map]
        exact hlen
    · rw [List.length_map]
      exact hlen

/-- Witness for C3: a 5-sample store, window 2, valid sorted queries `[1, 2]`;
the slice `[0, 4)` and its timestamps are handed to the linear routine. -/
theorem seq_linear_window_witness :
    SequenceInterpolator.interpolate
        ⟨[[0], [1], [2], [3], [4]], 0, 5, 1, none, "linear", 2, false⟩ [1, 2]
      = .ok (linear_interpolate_sequences
          (pySlice [[0], [1], [2], [3], [4]] 0 4)
          ((arangeZ 0 4).map fun k : ℤ => (k : ℚ) * 1 + 0)
          [1, 2] false,
        (seqValidInterval
          ⟨[[0], [1], [2], [3], [4]], 0, 5, 1, none, "linear", 2, false⟩).intersect
          [1, 2]) ∧
    (pySlice [[(0:ℚ)], [1], [2], [3], [4]] 0 4).length
      = ((arangeZ 0 4).map fun k : ℤ => (k : ℚ) * 1 + 0).length := by
  exact seq_linear_window
    ⟨[[0], [1], [2], [3], [4]], 0, 5, 1, none, "linear", 2, false⟩
    [1, 2] [1, 2] [1, 2] 0 4 rfl rfl
    (by norm_num : (0:ℚ) < 1)
    (by norm_num : (5:ℚ) = 0 + (5:ℕ) * 1)
    (by norm_num [List.chain'_cons, List.chain'_singleton])
    (by norm_num [maskFilter, seqValidInterval, TimeInterval.intersect])
    (by simp)
    (by norm_num)
    (by decide)
    (by decide)

lemma foldlM_except_length {β γ : Type} (f : List γ → β → Except String (List γ))
    (hf : ∀ acc b res, f acc b = .ok res → res.length = acc.length) :
    ∀ (l : List β) (init res : List γ),
      l.foldlM f init = .ok res → res.length = init.length := by
  intro l
  induction l with
  | nil =>
    intro init res h
    rw [List.foldlM_nil] at h
    cases h
    rfl
  | cons b bs ih =>
    intro init res h
    rw [List.foldlM_cons] at h
    cases hfb : f init b with
    | error e =>
      rw [hfb] at h
      exact Except.noConfusion (show Except.error e = Except.ok res from h)
    | ok mid =>
      rw [hfb] at h
      have h2 : bs.foldlM f mid = Except.ok res := h
      rw [ih mid res h2, hf init b mid hfb]

lemma optBind_ok {γ δ : Type} (msg : String) (o : Option γ)
    (g : γ → Except String δ) (r : δ)
    (h : (optToExcept msg o >>= g) = .ok r) :
    ∃ x, o = some x ∧ g x = .ok r := by
  cases o with
  | none => exact Except.noConfusion (show Except.error msg = Except.ok r from h)
  | some x => exact ⟨x, rfl, h⟩

lemma scatterSet_length (assignments : List (ℕ × Frame)) :
    ∀ out : List Frame, (scatterSet out assignments).length = out.length := by
  induction assignments with
  | nil => intro out; rfl
  | cons a l ih =>
    intro out
    unfold scatterSet at ih ⊢
    rw [List.foldl_cons]
    exact (ih (out.set a.1 a.2)).trans (List.length_set out a.1 a.2)

lemma takeAlongAxis0_length (data : List (List ℚ)) (idx : List (List ℤ))
    (r : List (List ℚ)) (h : takeAlongAxis0 data idx = some r) :
    r.length = idx.length := by
  unfold takeAlongAxis0 at h
  split at h
  case isTrue => exact mapM_option_length _ idx r h
  case isFalse => exact Option.noConfusion h

lemma seqLinearNoShift_length (s : SequenceInterpolator) (vt : List ℚ)
    (idx : List ℤ) (d : List (List ℚ)) (h : seqLinearNoShift s vt idx = .ok d) :
    d.length = vt.length := by
  unfold seqLinearNoShift at h
  cases idx with
  | nil => exact Except.noConfusion h
  | cons i0 rest =>
    dsimp only at h
    split at h
    case isTrue =>
      have hd := Except.ok.inj h
      subst hd
      simp [linear_interpolate_sequences]
    case isFalse => exact Except.noConfusion h

lemma seqLinearShift_length (s : SequenceInterpolator) (vt : List ℚ)
    (idx : List (List ℤ)) (d : List (List ℚ)) (h : seqLinearShift s vt idx = .ok d) :
    d.length = (s.data.headD []).length := by
  unfold seqLinearShift at h
  obtain ⟨col0, _, h⟩ := optBind_ok _ _ _ _ h
  obtain ⟨colN, _, h⟩ := optBind_ok _ _ _ _ h
  have hlen := foldlM_except_length _ ?_ _ _ _ h
  · rw [hlen, List.length_replicate]
  · intro acc n res hstep
    split at hstep
    case isTrue =>
      obtain ⟨ld, _, hstep⟩ := optBind_ok _ _ _ _ hstep
      dsimp only at hstep
      split at hstep
      case isTrue =>
        have := Except.ok.inj hstep
        subst this
        exact List.length_set acc n _
      case isFalse => exact Except.noConfusion hstep
    case isFalse => exact Except.noConfusion hstep

lemma seqSamples_length (s : SequenceInterpolator) (vt : List ℚ)
    (d : List (List ℚ)) (h : seqSamples s vt = .ok d) :
    d.length = (if s.phase_shifts.isSome ∧ s.interpolation_mode = "linear"
      then (s.data.headD []).length else vt.length) := by
  unfold seqSamples at h
  cases hp : s.phase_shifts with
  | none =>
    rw [hp] at h
    dsimp only at h
    rw [if_neg (by simp :
      ¬ ((none : Option (List ℚ)).isSome = true ∧ s.interpolation_mode = "linear"))]
    cases hg : npFancyIndex s.data
        (vt.map fun t => ⌊(t - s.start_time) / s.time_delta⌋) with
    | none => rw [hg] at h; exact Except.noConfusion h
    | some dat =>
      rw [hg] at h
      dsimp only at h
      split at h
      case isTrue =>
        have hd := Except.ok.inj h
        subst hd
        rw [mapM_option_length _ _ _ hg, List.length_map]
      case isFalse =>
        split at h
        case isTrue => exact seqLinearNoShift_length s vt _ d h
        case isFalse => exact Except.noConfusion h
  | some ps =>
    rw [hp] at h
    dsimp only at h
    cases hg : takeAlongAxis0 s.data
        (vt.map fun t => ps.map fun p => ⌊(t - p - s.start_time) / s.time_delta⌋) with
    | none => rw [hg] at h; exact Except.noConfusion h
    | some dat =>
      rw [hg] at h
      dsimp only at h
      split at h
      case isTrue hmode =>
        rw [if_neg (by rw [hmode]; simp)]
        have hd := Except.ok.inj h
        subst hd
        rw [takeAlongAxis0_length _ _ _ hg, List.length_map]
      case isFalse hmode1 =>
        split at h
        case isTrue hmode2 =>
          rw [if_pos ⟨by simp, hmode2⟩]
          exact seqLinearShift_length s vt _ d h
        case isFalse => exact Except.noConfusion h

lemma screen_interpolate_ok (sc : ScreenInterpolator) (times : List ℚ)
    (out : List Frame) (mask : List Bool)
    (h : sc.interpolate times = .ok (out, mask)) :
    screenSamples sc (maskFilter times ((screenValidInterval sc).intersect times))
        = .ok out ∧
    mask = (screenValidInterval sc).intersect times := by
  unfold ScreenInterpolator.interpolate at h
  dsimp only at h
  cases hs : screenSamples sc
      (maskFilter times ((screenValidInterval sc).intersect times)) with
  | error e => rw [hs] at h; simp [Except.map] at h
  | ok d =>
    rw [hs] at h
    simp only [Except.map, Except.ok.injEq, Prod.mk.injEq] at h
    exact ⟨by rw [h.1], h.2.symm⟩

lemma screenSamples_length (sc : ScreenInterpolator) (vt0 : List ℚ)
    (out : List Frame) (h : screenSamples sc vt0 = .ok out) :
    out.length = vt0.length := by
  unfold screenSamples at h
  dsimp only at h
  split at h
  case isFalse => exact Except.noConfusion h
  case isTrue =>
    split at h
    case isFalse => exact Except.noConfusion h
    case isTrue =>
      obtain ⟨dfi, _, h⟩ := optBind_ok _ _ _ _ h
      have hlen := foldlM_except_length _ ?_ _ _ _ h
      · rw [hlen, List.length_replicate, List.length_map]
      · intro acc u res hstep
        obtain ⟨tr, _, hstep⟩ := optBind_ok _ _ _ _ hstep
        obtain ⟨frames, _, hstep⟩ := optBind_ok _ _ _ _ hstep
        have := Except.ok.inj hstep
        subst this
        exact scatterSet_length _ acc

/-- C1 (amended): every successful `interpolate` returns
`mask = valid_interval.intersect(times)` and reconstructs values only for the
valid entries, never padding with sentinels; the samples' first dimension
equals the number of `True` mask entries in nearest-neighbor mode, in linear
mode without phase shifts, and for the screen interpolator — but in linear
mode with per-channel phase shifts the samples array is channel-major
(`np.full((n_signals, len(valid_times)))`, line 192), so its first dimension
is `n_signals`. -/
theorem interpolate_mask_and_shape :
    (∀ (s : SequenceInterpolator) (times : List ℚ) (samples : List (List ℚ))
      (mask : List Bool),
      s.interpolate times = .ok (samples, mask) →
      mask = (seqValidInterval s).intersect times ∧
      samples.length = (if s.phase_shifts.isSome ∧ s.interpolation_mode = "linear"
        then (s.data.headD []).length else mask.count true)) ∧
    (∀ (sc : ScreenInterpolator) (times : List ℚ) (out : List Frame)
      (mask : List Bool),
      sc.interpolate times = .ok (out, mask) →
      mask = (screenValidInterval sc).intersect times ∧
      out.length = mask.count true) := by
  constructor
  · intro s times samples mask h
    obtain ⟨hsamp, hmask⟩ := seq_interpolate_ok s times samples mask h
    refine ⟨hmask, ?_⟩
    rw [hmask, count_true_intersect]
    exact seqSamples_length s _ samples hsamp
  · intro sc times out mask h
    obtain ⟨hsamp, hmask⟩ := screen_interpolate_ok sc times out mask h
    refine ⟨hmask, ?_⟩
    rw [hmask, count_true_intersect]
    exact screenSamples_length sc _ out hsamp

lemma c1run :
    SequenceInterpolator.interpolate
        ⟨[[0, 0]], 0, 1, 1, some [0, 0], "linear", 5, false⟩ []
      = .ok ([[], []], []) := rfl

/-- C1 counterexample: in linear mode with two phase-shifted channels, the
samples array is allocated as `np.full((n_signals, len(valid_times)))`
(line 192), so on a query with no valid times the result still has first
dimension `n_signals = 2` while the mask has 0 `True` entries; the claim's
"its first dimension equals the number of True mask entries" fails on the
phase-shifted linear path. -/
theorem interpolate_shape_counterexample :
    SequenceInterpolator.interpolate
        ⟨[[0, 0]], 0, 1, 1, some [0, 0], "linear", 5, false⟩ []
      = .ok ([[], []], []) ∧
    ¬ (([[], []] : List (List ℚ)).length = ([] : List Bool).count true) := by
  exact ⟨c1run, by decide⟩

/-- Witness for C1 (amended) at the counterexample interpolator: the mask is
the intersect mask and the samples' first dimension is `n_signals = 2`. -/
theorem interpolate_mask_and_shape_witness :
    ([] : List Bool)
        = (seqValidInterval
            ⟨[[0, 0]], 0, 1, 1, some [0, 0], "linear", 5, false⟩).intersect [] ∧
    ([[], []] : List (List ℚ)).length = 2 := by
  have h := interpolate_mask_and_shape.1
    ⟨[[0, 0]], 0, 1, 1, some [0, 0], "linear", 5, false⟩ [] [[], []] [] c1run
  exact ⟨h.1, h.2⟩

lemma headD_eq_get (l : List ℚ) (h : 0 < l.length) : l.headD 0 = l.get ⟨0, h⟩ := by
  cases l with
  | nil => simp at h
  | cons a t => rfl

lemma getLastD_eq_get (l : List ℚ) (h : 0 < l.length) :
    l.getLastD 0 = l.get ⟨l.length - 1, by omega⟩ := by
  rw [List.getLastD_eq_getLast?, List.getLast?_eq_getElem?,
    List.getElem?_eq_getElem (by omega : l.length - 1 < l.length)]
  rw [List.get_eq_getElem]
  rfl

lemma mem_take_index {α : Type} {l : List α} {n : ℕ} {x : α} (h : x ∈ l.take n) :
    ∃ (i : ℕ) (hi : i < l.length), i < n ∧ l.get ⟨i, hi⟩ = x := by
  obtain ⟨i, hlen, hx⟩ := List.mem_iff_getElem.mp h
  have hlen' := hlen
  rw [List.length_take] at hlen'
  have h1 : i < n := by omega
  have h2 : i < l.length := by omega
  rw [List.getElem_take] at hx
  refine ⟨i, h2, h1, ?_⟩
  rw [List.get_eq_getElem]
  exact hx

lemma mem_drop_index {α : Type} {l : List α} {n : ℕ} {x : α} (h : x ∈ l.drop n) :
    ∃ (i : ℕ) (hi : i < l.length), n ≤ i ∧ l.get ⟨i, hi⟩ = x := by
  obtain ⟨j, hlen, hx⟩ := List.mem_iff_getElem.mp h
  have hlen' := hlen
  rw [List.length_drop] at hlen'
  rw [List.getElem_drop] at hx
  have h2 : n + j < l.length := by omega
  refine ⟨n + j, h2, by omega, ?_⟩
  rw [List.get_eq_getElem]
  exact hx

lemma searchsorted_split (ts : List ℚ) (n : ℕ) (v : ℚ) (hn : n ≤ ts.length)
    (hlow : ∀ x ∈ ts.take n, x < v) (hhigh : ∀ x ∈ ts.drop n, ¬ x < v) :
    searchsortedLeft ts v = n := by
  unfold searchsortedLeft
  conv_lhs => rw [← List.take_append_drop n ts]
  rw [List.countP_append]
  have h1 : (ts.take n).countP (fun x => decide (x < v)) = (ts.take n).length := by
    rw [List.countP_eq_length]
    intro a ha
    exact decide_eq_true (hlow a ha)
  have h2 : (ts.drop n).countP (fun x => decide (x < v)) = 0 := by
    rw [List.countP_eq_zero]
    intro a ha
    simpa using hhigh a ha
  rw [h1, h2, List.length_take]
  omega

lemma exceptOkBind {γ δ : Type} (a : γ) (g : γ → Except String δ) :
    (Except.ok a >>= g : Except String δ) = g a := rfl

/-- C5: with strictly separated timestamps (adjacent gaps above the `1e-4`
epsilon), querying the exact display time `timestamps[k]` of a frame owned by
trial `u` whose local offset `k - first_frame_idx` is in range of the trial's
frame stack returns exactly that frame's pixel data bit-for-bit, with validity
mask `[true]` (`k` strictly before the last timestamp, which is excluded by the
half-open valid interval). -/
theorem screen_exact_frame (sc : ScreenInterpolator) (k u : ℕ) (tr : ScreenTrial)
    (hk : k + 1 < sc.timestamps.length)
    (hgap : ∀ (i : ℕ) (hi : i + 1 < sc.timestamps.length),
      sc.timestamps.get ⟨i, by omega⟩ + 1/10000 < sc.timestamps.get ⟨i + 1, hi⟩)
    (hOwn : (dataFileIdx sc.trials).get? k = some u)
    (htr : sc.trials.get? u = some tr)
    (hoff : 0 ≤ (k : ℤ) - tr.first_frame_idx)
    (hlen : ((k : ℤ) - tr.first_frame_idx).toNat < tr.raw.normalize.length) :
    sc.interpolate [sc.timestamps.getD k 0]
      = .ok ([tr.raw.normalize.get ⟨((k : ℤ) - tr.first_frame_idx).toNat, hlen⟩],
             [true]) := by
  have heps : (0:ℚ) < 1/10000 := by norm_num
  have klt : k < sc.timestamps.length := by omega
  have hchain : List.Chain' (· < ·) sc.timestamps := by
    rw [List.chain'_iff_get]
    intro i hi
    have hi' : i + 1 < sc.timestamps.length := by omega
    have := hgap i hi'
    linarith
  have hpair : ∀ (i j : Fin sc.timestamps.length), i < j →
      sc.timestamps.get i < sc.timestamps.get j :=
    List.pairwise_iff_get.mp (List.chain'_iff_pairwise.mp hchain)
  have hq : sc.timestamps.getD k 0 = sc.timestamps.get ⟨k, klt⟩ :=
    List.getD_eq_get _ _ klt
  have hle : sc.timestamps.headD 0 ≤ sc.timestamps.getD k 0 := by
    rw [hq, headD_eq_get _ (by omega)]
    rcases Nat.eq_zero_or_pos k with hk0 | hk0
    · subst hk0
      exact le_refl _
    · exact le_of_lt (hpair ⟨0, by omega⟩ ⟨k, klt⟩ (Fin.mk_lt_mk.mpr hk0))
  have hlt : sc.timestamps.getD k 0 < sc.timestamps.getLastD 0 := by
    rw [hq, getLastD_eq_get _ (by omega)]
    exact hpair ⟨k, klt⟩ ⟨sc.timestamps.length - 1, by omega⟩
      (Fin.mk_lt_mk.mpr (by omega))
  have hvalid : (screenValidInterval sc).intersect [sc.timestamps.getD k 0]
      = [true] := by
    rw [intersect_eq_map]
    dsimp only [screenValidInterval]
    rw [List.map_cons, List.map_nil, decide_eq_true hle, decide_eq_true hlt]
    rfl
  have hrank : searchsortedLeft sc.timestamps (sc.timestamps.getD k 0 + 1/10000)
      = k + 1 := by
    apply searchsorted_split _ _ _ (by omega)
    · intro x hx
      obtain ⟨i, hi, hik, hxe⟩ := mem_take_index hx
      rw [← hxe, hq]
      rcases Nat.lt_succ_iff_lt_or_eq.mp hik with h | h
      · exact lt_trans (hpair ⟨i, hi⟩ ⟨k, klt⟩ (Fin.mk_lt_mk.mpr h)) (by linarith)
      · subst h
        exact lt_add_of_pos_right _ heps
    · intro x hx
      obtain ⟨i, hi, hik, hxe⟩ := mem_drop_index hx
      rw [← hxe, hq, not_lt]
      have hk1 : sc.timestamps.get ⟨k, klt⟩ + 1/10000
          < sc.timestamps.get ⟨k + 1, hk⟩ := hgap k hk
      rcases Nat.lt_or_ge (k + 1) i with h | h
      · exact le_of_lt (lt_trans hk1 (hpair ⟨k + 1, hk⟩ ⟨i, hi⟩ (Fin.mk_lt_mk.mpr h)))
      · have hieq : i = k + 1 := by omega
        subst hieq
        exact le_of_lt hk1
  have hdfi : (([(k : ℤ)]).mapM fun i => pyGet (dataFileIdx sc.trials) i)
      = some [u] := by
    simp only [List.mapM_cons, List.mapM_nil]
    rw [pyGet_nonneg _ _ (Int.natCast_nonneg k), Int.toNat_natCast, hOwn]
    rfl
  have hpos : ((([u].enum.filter fun p => p.2 == u).map fun p => p.1) : List ℕ)
      = [0] := by
    simp [List.enum, List.enumFrom]
  have hframes : (([0] : List ℕ).mapM fun j =>
        (([(k : ℤ)] : List ℤ).get? j) >>= fun i =>
          pyGet tr.raw.normalize (i - tr.first_frame_idx))
      = some [tr.raw.normalize.get ⟨((k : ℤ) - tr.first_frame_idx).toNat, hlen⟩] := by
    simp only [List.mapM_cons, List.mapM_nil, List.get?_cons_zero,
      Option.bind_eq_bind, Option.some_bind]
    rw [pyGet_nonneg _ _ hoff, List.get?_eq_get hlen]
    rfl
  unfold ScreenInterpolator.interpolate
  dsimp only
  rw [hvalid]
  rw [show maskFilter [sc.timestamps.getD k 0] [true] = [sc.timestamps.getD k 0]
    from rfl]
  unfold screenSamples
  dsimp only
  rw [List.map_cons, List.map_nil]
  rw [if_pos (show npAllDiffPos [sc.timestamps.getD k 0 + 1/10000] = true from rfl)]
  rw [List.map_cons, List.map_nil]
  rw [hrank]
  rw [show ((k + 1 : ℕ) : ℤ) - 1 = (k : ℤ) by push_cast; ring]
  rw [if_pos (show (([(k : ℤ)]).all fun i =>
      decide (0 ≤ i) && decide (i < (sc.timestamps.length : ℤ))) = true by
    rw [List.all_cons, List.all_nil, decide_eq_true (Int.natCast_nonneg k),
      decide_eq_true (show ((k : ℕ) : ℤ) < (sc.timestamps.length : ℤ) by
        exact_mod_cast klt)]
    rfl)]
  rw [hdfi]
  rw [show optToExcept indexErrorMsg (some [u]) = Except.ok [u] from rfl]
  rw [exceptOkBind]
  rw [show npUnique [u] = [u] from rfl]
  rw [List.foldlM_cons]
  rw [htr]
  rw [show optToExcept indexErrorMsg (some tr) = Except.ok tr from rfl]
  rw [exceptOkBind]
  rw [hpos]
  rw [hframes]
  rw [show optToExcept indexErrorMsg
      (some [tr.raw.normalize.get ⟨((k : ℤ) - tr.first_frame_idx).toNat, hlen⟩])
    = Except.ok [tr.raw.normalize.get ⟨((k : ℤ) - tr.first_frame_idx).toNat, hlen⟩]
    from rfl]
  rw [exceptOkBind]
  rfl

theorem screen_exact_frame_witness :
    ScreenInterpolator.interpolate
        ⟨[0, 1, 2, 3],
         [⟨0, 2, .threeD [[[1]], [[2]]]⟩, ⟨2, 2, .threeD [[[3]], [[4]]]⟩],
         (1, 1)⟩ [2]
      = .ok ([[[3]]], [true]) := by
  have hg : ∀ (i : ℕ) (hi : i + 1 < ([0, 1, 2, 3] : List ℚ).length),
      ([0, 1, 2, 3] : List ℚ).get ⟨i, by omega⟩ + 1/10000
        < ([0, 1, 2, 3] : List ℚ).get ⟨i + 1, hi⟩ := by
    intro i hi
    have hi4 : i < 3 := by
      simp only [List.length_cons, List.length_nil] at hi
      omega
    interval_cases i
    · show (0:ℚ) + 1/10000 < 1
      norm_num
    · show (1:ℚ) + 1/10000 < 2
      norm_num
    · show (2:ℚ) + 1/10000 < 3
      norm_num
  have h := screen_exact_frame
    ⟨[0, 1, 2, 3],
     [⟨0, 2, .threeD [[[1]], [[2]]]⟩, ⟨2, 2, .threeD [[[3]], [[4]]]⟩],
     (1, 1)⟩ 2 1 ⟨2, 2, .threeD [[[3]], [[4]]]⟩
    (by decide) hg (by decide) rfl (by decide) (by decide)
  exact h
